import Mathlib

/- Shallow embedding of the pefarrell/ufl sources: the expression-type registry
(src/ufl/core/ufl_type.py), parts of the form-preprocessing pipeline
(src/ufl/algorithms/compute_form_data.py), the index model (src/ufl/indexing.py)
and the list-literal tensor constructors (src/ufl/tensors.py).

Python `None` is modelled by `Option.none`; a Python attribute that is either
absent or `None` is modelled as a single `none` (the two are indistinguishable
to `get_base_attr`, the only reader).  Exceptions are modelled by `Except`:
an error value aborts the registration or pipeline call, matching the
"fail eagerly, produce no partial result" discipline of the code. -/

namespace Ufl

/-- Attributes of one class of a method-resolution-order chain, as read by the
checks in `_ufl_type_decorator_`.  `terminalAttr`, `numOpsAttr` and
`scalarAttr` give the class's own `_ufl_is_terminal_`, `_ufl_num_ops_` and
`_ufl_is_scalar_` values, with `none` standing for a missing attribute or an
attribute whose value is Python `None`. -/
structure BaseAttrs where
  isExprSubclass : Bool
  isAbstract : Bool
  hasSlots : Bool
  terminalAttr : Option Bool
  numOpsAttr : Option Nat
  scalarAttr : Option Bool
deriving DecidableEq

/-- One node-kind registration: the keyword arguments of `ufl_type` together
with the properties of the decorated class object that the checks consult.
`bases` lists the classes of `cls.mro()` strictly after `cls` and before the
root (the new class's own dictionary defines none of the queried traits at
decoration time).  `hasRequiredMethods` / `hasRequiredProperties` summarise the
loops over `Expr._ufl_required_methods_` / `_ufl_required_properties_`, whose
contents live in `ufl/core/expr.py`, outside src/. -/
structure KindDecl where
  name : String
  isAbstract : Bool
  isTerminal : Option Bool
  isScalar : Bool
  isShaping : Bool
  numOps : Option Nat
  unop : Bool
  binop : Bool
  rbinop : Bool
  noslots : Bool
  hasOwnSlots : Bool
  bases : List BaseAttrs
  hasRequiredMethods : Bool
  hasRequiredProperties : Bool
  wrapsTypeGiven : Bool
  wrapsTypeIsType : Bool
deriving DecidableEq

/-- `get_base_attr(cls, name)` of src/ufl/core/ufl_type.py: the first
attribute of the given name along the mro that is present and not `None`. -/
def get_base_attr (attrs : List (Option α)) : Option α :=
  attrs.findSome? id

/-- Modelled from the spec: `camel2underscore` is imported from `ufl/common.py`,
which is not under src/.  Section 4.1 of the spec says the handler name is
derived deterministically from the kind's display name, CamelCase converted to
underscore-separated; an underscore is inserted before every interior capital
letter and all letters are lowered. -/
def camel2underscore (s : String) : String :=
  String.mk (s.toList.foldl
    (fun acc c =>
      if c.isUpper && !acc.isEmpty then acc ++ ['_', c.toLower]
      else acc ++ [c.toLower]) [])

/-- The registry: the mutable class attributes of `Expr` updated by
`_ufl_type_decorator_`.  `allHandlerNames` is a Python `set`; it is modelled
as a list to which `setAdd` appends only unseen elements. -/
structure RegState where
  numTypecodes : Nat
  allClasses : List String
  allHandlerNames : List String
  objInitCounts : List Nat
  objDelCounts : List Nat
deriving DecidableEq

/-- The empty registry in which no kind has been registered. -/
def RegState.start : RegState := ⟨0, [], [], [], []⟩

/-- `set.add`: inserting an element already present leaves the set unchanged. -/
def setAdd (s : List String) (x : String) : List String :=
  if x ∈ s then s else s ++ [x]

/-- Failures of a registration: `typeErr` models a raised `TypeError`,
`assertionErr` a failed `assert` statement. -/
inductive RegErr where
  | typeErr (msg : String)
  | assertionErr
deriving DecidableEq

/-- The trait attributes stored on a class by the decorators.  Fields are
`Option`-valued where the Python attribute can be `None` or can be left
entirely unset (`isScalar`, `uflShape`, `uflFreeIndices` and
`uflIndexDimensions` are only ever assigned by
`uflcore__ufl_type_decorator_`). -/
structure ClsAttrs where
  name : String
  isAbstract : Bool
  isShaping : Bool
  handlerName : String
  typecode : Nat
  isTerminal : Option Bool
  numOps : Option Nat
  isScalar : Option Bool
  uflShape : Option (List Nat)
  uflFreeIndices : Option (List Nat)
  uflIndexDimensions : Option (List Nat)
deriving DecidableEq

/-- Lines 104-120 of src/ufl/core/ufl_type.py: `num_ops` as given, else 0 for
a terminal (the stored trait is truthy only when it is `True`), else 1/2 for
an operator binding, else the first non-`None` `_ufl_num_ops_` among the
bases. -/
def resolve_num_ops (cls : KindDecl) (terminalTrait : Option Bool) : Option Nat :=
  let autoNumOps :=
    match cls.numOps with
    | some n => some n
    | none =>
      if terminalTrait.getD false then some 0
      else if cls.unop then some 1
      else if cls.binop || cls.rbinop then some 2
      else none
  match autoNumOps with
  | some n => some n
  | none => get_base_attr (cls.bases.map (fun b => b.numOpsAttr))

/-- `_ufl_type_decorator_` of src/ufl/core/ufl_type.py (lines 42-150), the
decorator actually returned by `ufl_type`.  It is translated check for check
in source order: hierarchy check, `__slots__` check, class/handler/typecode
bookkeeping, terminal-trait resolution (note that the source's `else` branch
overwrites the inherited `auto_is_terminal` with the explicit argument even
when that argument is `None`), `num_ops` resolution (`resolve_num_ops`), the
object-count slots, the four consistency assertions and the final `num_ops`
checks.  The language-operator registration of lines 123-127 touches none of
the state compared by the assertions and is omitted. -/
def _ufl_type_decorator_ (cls : KindDecl) (st : RegState) :
    Except RegErr (RegState × ClsAttrs) :=
  if cls.bases.any (fun b => !b.isExprSubclass && b.isAbstract) then
    .error (.typeErr "Base class is not an abstract subclass of Expr.")
  else if !cls.noslots && !cls.hasOwnSlots then
    .error (.typeErr "Class is missing the __slots__ attribute.")
  else if !cls.noslots && cls.bases.any (fun b => !b.hasSlots) then
    .error (.typeErr "Class has a base class with __slots__ missing.")
  else
    let handler := camel2underscore cls.name
    let st1 : RegState :=
      { numTypecodes := st.numTypecodes + 1
        allClasses := st.allClasses ++ [cls.name]
        allHandlerNames := setAdd st.allHandlerNames handler
        objInitCounts := st.objInitCounts
        objDelCounts := st.objDelCounts }
    let autoIsTerminal := get_base_attr (cls.bases.map (fun b => b.terminalAttr))
    if cls.isTerminal.isNone && autoIsTerminal.isNone then
      .error (.typeErr "Class has not specified the is_terminal trait.")
    else
      let terminalTrait := cls.isTerminal
      let numOpsTrait := resolve_num_ops cls terminalTrait
      let st2 : RegState :=
        { st1 with
            objInitCounts := st1.objInitCounts ++ [0]
            objDelCounts := st1.objDelCounts ++ [0] }
      if !(st2.numTypecodes = st2.allHandlerNames.length
            ∧ st2.numTypecodes = st2.allClasses.length
            ∧ st2.numTypecodes = st2.objInitCounts.length
            ∧ st2.numTypecodes = st2.objDelCounts.length : Bool) then
        .error .assertionErr
      else if !cls.isAbstract && numOpsTrait.isNone then
        .error (.typeErr "Class has not specified num_ops.")
      else if terminalTrait.getD false && !(numOpsTrait = some 0 : Bool) then
        .error (.typeErr "Class has num_ops > 0 but is terminal.")
      else
        .ok (st2,
          { name := cls.name
            isAbstract := cls.isAbstract
            isShaping := cls.isShaping
            handlerName := handler
            typecode := st.numTypecodes
            isTerminal := terminalTrait
            numOps := numOpsTrait
            isScalar := none
            uflShape := none
            uflFreeIndices := none
            uflIndexDimensions := none })

/-- `ufl_type` (line 226 of src/ufl/core/ufl_type.py): the decorator factory
returns `_ufl_type_decorator_` and nothing else, so registering a kind runs
exactly the checks of that function.  In particular the second decorator body
`uflcore__ufl_type_decorator_` defined in the same file is never applied. -/
def ufl_type (cls : KindDecl) (st : RegState) : Except RegErr (RegState × ClsAttrs) :=
  _ufl_type_decorator_ cls st

/-- `uflcore__ufl_type_decorator_` of src/ufl/core/ufl_type.py (lines 156-224),
kept in the source behind a "move bit by bit" TODO and never returned by
`ufl_type`.  Scalar handling: `cls._ufl_is_scalar_` is assigned first, so the
subsequent `get_base_attr(cls, "_ufl_is_scalar_")` walk starts at `cls.mro()[0]
= cls` itself, whose just-assigned value (False on this branch) is returned
before any base class is consulted. -/
def uflcore__ufl_type_decorator_ (cls : KindDecl) (a : ClsAttrs) :
    Except RegErr ClsAttrs :=
  let a1 : ClsAttrs := { a with isScalar := some cls.isScalar }
  let a2 : ClsAttrs :=
    if cls.isScalar then
      { a1 with
          uflShape := some []
          uflFreeIndices := some []
          uflIndexDimensions := some [] }
    else a1
  if !cls.isScalar
      && (get_base_attr (some cls.isScalar :: cls.bases.map (fun b => b.scalarAttr))).getD false then
    .error (.typeErr "Non-scalar class has a scalar base class.")
  else if !cls.isAbstract && !cls.hasRequiredMethods then
    .error (.typeErr "Class is missing a required method.")
  else if !cls.isAbstract && !cls.hasRequiredProperties then
    .error (.typeErr "Class is missing a required property.")
  else if cls.wrapsTypeGiven && !cls.wrapsTypeIsType then
    .error (.typeErr "Expecting a type for the wraps_type argument.")
  else
    .ok a2

/-- Registers a list of kinds in order from a starting registry state,
collecting the assigned typecodes; a raised error aborts the sequence. -/
def registerMany : List KindDecl → RegState → Except RegErr (RegState × List Nat)
  | [], st => .ok (st, [])
  | k :: rest, st =>
    match _ufl_type_decorator_ k st with
    | .error e => .error e
    | .ok (st1, attrs) =>
      match registerMany rest st1 with
      | .error e => .error e
      | .ok (st2, tcs) => .ok (st2, attrs.typecode :: tcs)

/-- The `_ufl_is_terminal_` value a registration stores, `none` if the
registration raised. -/
def regTerminalTrait (k : KindDecl) (st : RegState) : Option (Option Bool) :=
  match ufl_type k st with
  | .ok (_, a) => some a.isTerminal
  | .error _ => none

/-- The `ufl_shape` value a registration via `ufl_type` stores, `none` if the
registration raised. -/
def regShapeOf (k : KindDecl) (st : RegState) : Option (Option (List Nat)) :=
  match ufl_type k st with
  | .ok (_, a) => some a.uflShape
  | .error _ => none

/-- The `_ufl_is_scalar_` value a registration via `ufl_type` stores, `none`
if the registration raised. -/
def regScalarOf (k : KindDecl) (st : RegState) : Option (Option Bool) :=
  match ufl_type k st with
  | .ok (_, a) => some a.isScalar
  | .error _ => none

/-- Whether `uflcore__ufl_type_decorator_` raises on the given class. -/
def uflcoreFails (cls : KindDecl) (a : ClsAttrs) : Bool :=
  match uflcore__ufl_type_decorator_ cls a with
  | .error _ => true
  | .ok _ => false

/-- The `ufl_shape` value `uflcore__ufl_type_decorator_` would store, `none`
if it raised. -/
def uflcoreShapeOf (cls : KindDecl) (a : ClsAttrs) : Option (Option (List Nat)) :=
  match uflcore__ufl_type_decorator_ cls a with
  | .ok a1 => some a1.uflShape
  | .error _ => none

/-- The four consistency assertions of lines 135-139: the number of typecodes
equals the number of registered handler names, classes and per-kind
instance-count slots. -/
def RegState.consistent (st : RegState) : Prop :=
  st.numTypecodes = st.allHandlerNames.length
  ∧ st.numTypecodes = st.allClasses.length
  ∧ st.numTypecodes = st.objInitCounts.length
  ∧ st.numTypecodes = st.objDelCounts.length

instance (st : RegState) : Decidable st.consistent := by
  unfold RegState.consistent; infer_instance

/-- A blank attribute record, as a stand-in for the class object that
`uflcore__ufl_type_decorator_` receives. -/
def blankAttrs : ClsAttrs :=
  { name := "Blank"
    isAbstract := false
    isShaping := false
    handlerName := "blank"
    typecode := 0
    isTerminal := some true
    numOps := some 0
    isScalar := none
    uflShape := none
    uflFreeIndices := none
    uflIndexDimensions := none }

/-- An abstract base carrying `_ufl_is_terminal_ = True` (such as `Terminal`)
together with `_ufl_num_ops_ = 0`. -/
def terminalBase : BaseAttrs :=
  { isExprSubclass := true
    isAbstract := true
    hasSlots := true
    terminalAttr := some true
    numOpsAttr := some 0
    scalarAttr := none }

/-- A concrete leaf kind that leaves `is_terminal` unspecified and inherits it
from `terminalBase`. -/
def leafKind : KindDecl :=
  { name := "MyLeaf"
    isAbstract := false
    isTerminal := none
    isScalar := false
    isShaping := false
    numOps := none
    unop := false
    binop := false
    rbinop := false
    noslots := true
    hasOwnSlots := false
    bases := [terminalBase]
    hasRequiredMethods := true
    hasRequiredProperties := true
    wrapsTypeGiven := false
    wrapsTypeIsType := false }

/-- A kind with no base traits at all and `is_terminal` unspecified. -/
def traitlessKind : KindDecl :=
  { leafKind with name := "Traitless", bases := [] }

/-- A concrete kind registered with `is_scalar=True`. -/
def scalarKind : KindDecl :=
  { leafKind with name := "MyScalar", isTerminal := some true, isScalar := true }

/-- A base carrying `_ufl_is_scalar_ = True`. -/
def scalarBase : BaseAttrs := { terminalBase with scalarAttr := some true }

/-- A non-scalar kind whose base was marked scalar. -/
def nonScalarChild : KindDecl :=
  { leafKind with
      name := "MyNonScalar"
      isTerminal := some true
      isScalar := false
      bases := [scalarBase] }

/-- A plain terminal kind parameterised by its display name. -/
def namedKind (s : String) : KindDecl :=
  { leafKind with name := s, isTerminal := some true }

/-- The registry state after successfully registering `namedKind "Foo"`. -/
def afterFoo : RegState :=
  match _ufl_type_decorator_ (namedKind "Foo") RegState.start with
  | .ok (st, _) => st
  | .error _ => RegState.start

end Ufl

namespace UflPipeline

/-- A finite element as seen by `_compute_element_mapping`: only the domain
and the degree are consulted; `element.reconstruct(domain=..., degree=...)`
returns a copy with those two attributes set.  Domains are identified by
integers. -/
structure FElement where
  domain : Option Nat
  degree : Option Nat
deriving DecidableEq

/-- Modelled from the spec: `form.arguments()`, `form.coefficients()`,
`form.domains()` and `extract_sub_elements` live in modules that are not under
src/ (`ufl/algorithms/analysis.py` and the modern `Form` class).  A form is
modelled by the already-extracted list of elements of its arguments and
coefficients, sub-elements included, and by its set of domains (given as a
list without duplicates). -/
structure FormModel where
  elements : List FElement
  domains : List Nat
deriving DecidableEq

/-- Python 2 `max` on two arguments where `None` compares below every
integer. -/
def pymax2 (a b : Option Nat) : Option Nat :=
  match a, b with
  | none, b => b
  | a, none => a
  | some x, some y => some (max x y)

/-- `_auto_select_degree` of src/ufl/algorithms/compute_form_data.py
(lines 51-69): `max` of all element degrees (`or [None]` supplies `None` for
an empty element list), defaulting to 1 when that is `None`, then floored
at 1. -/
def _auto_select_degree (elements : List FElement) : Nat :=
  let degrees := elements.map (fun e => e.degree)
  let common := (if degrees.isEmpty then [none] else degrees).foldl pymax2 none
  let common1 := match common with | none => 1 | some d => d
  max 1 common1

/-- Failure of the element-mapping pass: the `ufl_assert` of line 92 of
src/ufl/algorithms/compute_form_data.py, which the spec calls
`AmbiguousDomainError`. -/
inductive PipeErr where
  | ambiguousDomain
deriving DecidableEq

/-- The body of the element loop of `_compute_element_mapping` (lines 83-109):
a missing domain is replaced by the form's unique domain (raising when the
form does not have exactly one domain), a missing degree by the common
degree; an element needing no change maps to itself. -/
def mapElement (domains : List Nat) (common : Nat) (e : FElement) :
    Except PipeErr FElement :=
  match e.domain with
  | none =>
    match domains with
    | [dom] => .ok { domain := some dom, degree := some (e.degree.getD common) }
    | _ => .error .ambiguousDomain
  | some d =>
    match e.degree with
    | none => .ok { domain := some d, degree := some common }
    | some g => .ok { domain := some d, degree := some g }

/-- The element loop of `_compute_element_mapping`, returning the mapping as
an association list in element order. -/
def mapElements (domains : List Nat) (common : Nat) :
    List FElement → Except PipeErr (List (FElement × FElement))
  | [] => .ok []
  | e :: rest =>
    match mapElement domains common e with
    | .error err => .error err
    | .ok e1 =>
      match mapElements domains common rest with
      | .error err => .error err
      | .ok tail => .ok ((e, e1) :: tail)

/-- `_compute_element_mapping` of src/ufl/algorithms/compute_form_data.py
(lines 71-111). -/
def _compute_element_mapping (form : FormModel) :
    Except PipeErr (List (FElement × FElement)) :=
  mapElements form.domains (_auto_select_degree form.elements) form.elements

/-- A form with one complete element spanning the two distinct domains 0
and 1. -/
def twoDomForm : FormModel :=
  { elements := [{ domain := some 0, degree := some 1 }], domains := [0, 1] }

/-- A coefficient is identified by its declaration-order count (per the spec,
the count is a process-wide identity and the sort key of coefficient
reduction). -/
abbrev Coefficient := Nat

/-- Python `set.update` element step: add the element unless present. -/
def pySetInsert (s : List Coefficient) (c : Coefficient) : List Coefficient :=
  if c ∈ s then s else s ++ [c]

/-- The `reduced_coefficients_set` accumulation of
src/ufl/algorithms/compute_form_data.py (lines 243-245): the union of the
`integral_coefficients` of all integral-data groups. -/
def unionCoeffs (groups : List (List Coefficient)) : List Coefficient :=
  groups.foldl (fun acc g => g.foldl pySetInsert acc) []

/-- Line 246: `sorted(reduced_coefficients_set, key=lambda c: c.count())`. -/
def reduced_coefficients (groups : List (List Coefficient)) : List Coefficient :=
  (unionCoeffs groups).insertionSort (· ≤ ·)

/-- One `IntegralData` group as consulted by `_compute_num_sub_domains`: its
integral type and its subdomain id, the latter either the string sentinel
(`Sum.inl`) or an integer (`Sum.inr`). -/
structure ItgGroup where
  integral_type : String
  subdomain_id : String ⊕ Nat
deriving DecidableEq

/-- Lines 118-121: a string subdomain id contributes 0, an integer id `si`
contributes `si + 1`. -/
def subContribution : String ⊕ Nat → Nat
  | .inl _ => 0
  | .inr si => si + 1

/-- Line 123 `max(prev, new)` under Python 2 comparison, where
`prev = d.get(it)` is `None` the first time a key is seen and `None` is below
every integer. -/
def pyMaxUpd (prev : Option Nat) (nw : Nat) : Nat :=
  match prev with
  | none => nw
  | some p => max p nw

/-- Python `dict.__setitem__` on an association list. -/
def dictSet (d : List (String × Nat)) (k : String) (v : Nat) :
    List (String × Nat) :=
  match d with
  | [] => [(k, v)]
  | (k1, v1) :: rest =>
    if k1 = k then (k, v) :: rest else (k1, v1) :: dictSet rest k v

/-- `_compute_num_sub_domains` of src/ufl/algorithms/compute_form_data.py
(lines 113-124). -/
def _compute_num_sub_domains (integral_data : List ItgGroup) :
    List (String × Nat) :=
  integral_data.foldl
    (fun d g =>
      dictSet d g.integral_type
        (pyMaxUpd (List.lookup g.integral_type d) (subContribution g.subdomain_id)))
    []

/-- Proof abbreviation: the value the dictionary entry of one key goes through
when a list of contributions is folded in by `pyMaxUpd`. -/
def valFold (o : Option Nat) (cs : List Nat) : Option Nat :=
  cs.foldl (fun acc c => some (pyMaxUpd acc c)) o

/-- Proof abbreviation: the contributions (`subContribution` values) of the
groups of one integral type, in group order. -/
def tContribs (t : String) (gs : List ItgGroup) : List Nat :=
  gs.filterMap fun g =>
    if g.integral_type = t then some (subContribution g.subdomain_id) else none

/-- Proof abbreviation: the integer subdomain ids occurring for one integral
type, in group order. -/
def intIds (t : String) (gs : List ItgGroup) : List Nat :=
  gs.filterMap fun g =>
    if g.integral_type = t then
      match g.subdomain_id with
      | .inr n => some n
      | .inl _ => none
    else none

end UflPipeline

namespace UflIndexing

/-- What a user may write inside `[]`: a symbolic `Index` (identified by its
count), a Python int, a full slice `:`, a partial slice, or `Ellipsis`. -/
inductive UserIdx where
  | symbolic (count : Nat)
  | intLit (value : Nat)
  | fullSlice
  | badSlice
  | ellipsis
deriving DecidableEq

/-- The three index variants stored in a `MultiIndex`
(src/ufl/indexing.py): symbolic `Index`, `FixedIndex`, and the `Axis`
wildcard. -/
inductive UflIdx where
  | symbolic (count : Nat)
  | fixed (value : Nat)
  | axis
deriving DecidableEq

/-- Failures of the indexing module: each constructor corresponds to one
`ufl_assert`/`ufl_error` call site of src/ufl/indexing.py. -/
inductive IdxErr where
  | sliceNotFull
  | notAnIndex
  | duplicateEllipsis
  | tooManyRepetitions
  | logicBreach
deriving DecidableEq

/-- `as_index` of src/ufl/indexing.py (lines 75-85).  `Ellipsis` is not one of
the accepted kinds, so it falls through to the final `ufl_error`. -/
def as_index : UserIdx → Except IdxErr UflIdx
  | .symbolic c => .ok (.symbolic c)
  | .intLit v => .ok (.fixed v)
  | .fullSlice => .ok .axis
  | .badSlice => .error .sliceNotFull
  | .ellipsis => .error .notAnIndex

/-- The loop of `as_index_tuple` (lines 99-110), with its `found` flag and its
`pre`/`post` accumulators translated verbatim: `found` starts `False` and the
only assignment `found = True` sits inside the `if found:` branch, so the
`else` branch - which rejects any `Ellipsis` as a duplicate and appends every
converted index to `post` - is the only one ever taken. -/
def asIndexLoop :
    List UserIdx → Bool → List UflIdx → List UflIdx →
    Except IdxErr (List UflIdx × List UflIdx)
  | [], _, pre, post => .ok (pre, post)
  | idx :: rest, found, pre, post =>
    if found then
      if idx = .ellipsis then
        asIndexLoop rest true pre post
      else
        match as_index idx with
        | .error e => .error e
        | .ok i => asIndexLoop rest found (pre ++ [i]) post
    else
      if idx = .ellipsis then .error .duplicateEllipsis
      else
        match as_index idx with
        | .error e => .error e
        | .ok i => asIndexLoop rest found pre (post ++ [i])

/-- `as_index_tuple` of src/ufl/indexing.py (lines 88-114): run the loop, then
`pre + [Axis]*(rank-len(pre)-len(post)) + post`, the Python list-repeat of a
non-positive count being the empty list exactly as truncated subtraction
gives. -/
def as_index_tuple (indices : List UserIdx) (rank : Nat) :
    Except IdxErr (List UflIdx) :=
  match asIndexLoop indices false [] [] with
  | .error e => .error e
  | .ok (pre, post) =>
    .ok (pre ++ List.replicate (rank - pre.length - post.length) .axis ++ post)

/-- `MultiIndex.__init__` (lines 148-149): the stored `_indices` tuple is
exactly `as_index_tuple(indices, rank)`. -/
def MultiIndex_init (indices : List UserIdx) (rank : Nat) :
    Except IdxErr (List UflIdx) :=
  as_index_tuple indices rank

/-- The count of a symbolic index, `none` for the other variants. -/
def getSymCount : UflIdx → Option Nat
  | .symbolic c => some c
  | _ => none

/-- Whether an index is a `FixedIndex`. -/
def isFixedIdx : UflIdx → Bool
  | .fixed _ => true
  | _ => false

/-- Whether an index is the `Axis` wildcard. -/
def isAxis : UflIdx → Bool
  | .axis => true
  | _ => false

/-- The comprehension `[(i, idx) for i, idx in enumerate(indices) if
isinstance(idx, FixedIndex)]` (line 121), keeping the position and the fixed
value. -/
def enumFixed : Nat → List UflIdx → List (Nat × Nat)
  | _, [] => []
  | i, .fixed v :: rest => (i, v) :: enumFixed (i + 1) rest
  | i, _ :: rest => enumFixed (i + 1) rest

/-- `extract_indices` of src/ufl/indexing.py (lines 117-143).  The two
leading `ufl_assert` type checks are discharged by the embedding's types.
`index_count` is the multiset of symbolic counts, its `keys()` the
deduplicated list; the repetition bound, the free/repeated split and the
final bookkeeping assertion follow the source. -/
def extract_indices (indices : List UflIdx) :
    Except IdxErr (List (Nat × Nat) × List Nat × List Nat × Nat) :=
  let fixed_indices := enumFixed 0 indices
  let num_unassigned := indices.countP isAxis
  let symcounts := indices.filterMap getSymCount
  let uniq := symcounts.dedup
  if !(uniq.all fun c => decide (symcounts.count c ≤ 2)) then
    .error .tooManyRepetitions
  else
    let free_indices := uniq.filter fun c => decide (symcounts.count c = 1)
    let repeated_indices := uniq.filter fun c => decide (symcounts.count c = 2)
    if fixed_indices.length + free_indices.length + 2 * repeated_indices.length
        + num_unassigned ≠ indices.length then
      .error .logicBreach
    else
      .ok (fixed_indices, free_indices, repeated_indices, num_unassigned)

end UflIndexing

namespace UflTensors

/-- A scalar entry of a list-literal vector or matrix, reduced to the two
queries `ListVector.__init__`/`ListMatrix.__init__` make of it: `rank()` and
`free_indices()` (symbolic indices by count). -/
structure ScalarExpr where
  rank : Nat
  free_indices : List Nat
deriving DecidableEq

/-- `len(eset ^ set(e.free_indices())) == 0`: the symmetric difference of two
finite sets is empty exactly when they are equal as sets. -/
def sameFreeSet (a b : List Nat) : Bool :=
  (a.all fun x => decide (x ∈ b)) && (b.all fun x => decide (x ∈ a))

/-- Failures of the list-literal constructors: `indexErr` models the
`IndexError` Python raises on an out-of-range `expressions[0]` access, the
others the `ufl_assert` calls of src/ufl/tensors.py. -/
inductive TensorErr where
  | indexErr
  | expectingScalar
  | inconsistentRowSize
  | malformedIndex
deriving DecidableEq

/-- `ListVector.__init__` of src/ufl/tensors.py (lines 16-25): all entries
must be scalar, then the free-index set of the first entry is stored and
every entry must have the same free-index set.  Returns the stored free
indices (`tuple(eset)`, modelled in deduplication order). -/
def ListVector_init (expressions : List ScalarExpr) : Except TensorErr (List Nat) :=
  if !(expressions.all fun e => decide (e.rank = 0)) then
    .error .expectingScalar
  else
    match expressions with
    | [] => .error .indexErr
    | e0 :: _ =>
      if expressions.all fun e => sameFreeSet e0.free_indices e.free_indices then
        .ok e0.free_indices.dedup
      else
        .error .malformedIndex

/-- `ListMatrix.__init__` of src/ufl/tensors.py (lines 41-56): consistent row
sizes, scalar entries, then the free-index set of entry (0,0) is stored and
every entry must have the same free-index set. -/
def ListMatrix_init (expressions : List (List ScalarExpr)) :
    Except TensorErr (List Nat) :=
  match expressions with
  | [] => .error .indexErr
  | r0 :: _ =>
    let c := r0.length
    if !(expressions.all fun row => decide (row.length = c)) then
      .error .inconsistentRowSize
    else if !(expressions.all fun row => row.all fun e => decide (e.rank = 0)) then
      .error .expectingScalar
    else
      match r0 with
      | [] => .error .indexErr
      | e00 :: _ =>
        if expressions.all fun row =>
            row.all fun e => sameFreeSet e00.free_indices e.free_indices then
          .ok e00.free_indices.dedup
        else
          .error .malformedIndex

end UflTensors

namespace Ufl

/-- C1: the claim says a kind registered without an explicit `is_terminal`
value inherits the trait from the nearest ancestor that defines it, failing
exactly when neither exists.  The failure half holds, but the assignment half
does not: the source's `else` branch (line 100) stores the explicit argument
unconditionally, so `leafKind` - whose nearest ancestor defines
`_ufl_is_terminal_ = True` - registers successfully with the trait left as
`None` instead of `True`. -/
theorem terminal_trait_overwritten :
    get_base_attr (leafKind.bases.map (fun b => b.terminalAttr)) = some true
    ∧ regTerminalTrait leafKind RegState.start = some none
    ∧ regTerminalTrait traitlessKind RegState.start = none :=
  ⟨rfl, rfl, rfl⟩

/-- C2: the claim says registration with `is_scalar` true fixes shape and
index data to the canonical empty values and registration with `is_scalar`
false fails when an ancestor is scalar.  Neither happens: `ufl_type` returns
`_ufl_type_decorator_`, which never touches the scalar traits (first two
conjuncts), the dead second decorator would have fixed the shape (third
conjunct), and even it cannot fail on a scalar ancestor because its
`get_base_attr` walk finds the just-assigned `cls._ufl_is_scalar_ = False`
first (fourth conjunct). -/
theorem scalar_resolution_unapplied :
    regShapeOf scalarKind RegState.start = some none
    ∧ regScalarOf scalarKind RegState.start = some none
    ∧ uflcoreShapeOf scalarKind blankAttrs = some (some [])
    ∧ uflcoreFails nonScalarChild blankAttrs = false :=
  ⟨rfl, rfl, rfl, rfl⟩

end Ufl

namespace UflPipeline

/-- C6 counterexample: a form spanning the two distinct domains 0 and 1 whose
only element already has a domain and a degree maps successfully, so "for
every form spanning two distinct domains, computing the element mapping
fails" is false - the domain-count assertion only runs for an element whose
domain is missing. -/
theorem two_domain_mapping_succeeds :
    twoDomForm.domains.length = 2
    ∧ twoDomForm.domains.Nodup
    ∧ _compute_element_mapping twoDomForm =
        .ok [({ domain := some 0, degree := some 1 },
              { domain := some 0, degree := some 1 })] :=
  ⟨rfl, by decide, rfl⟩

end UflPipeline

namespace UflIndexing

/-- C8: the claim says the stored index tuple of a `MultiIndex` has length
equal to the rank after ellipsis/slice expansion with missing positions
filled by `Axis`.  The loop's `found` flag is never set, so a lone `Ellipsis`
is rejected as a duplicate instead of expanding (first conjunct, contradicting
the docstring of `as_index_tuple`); without an ellipsis the `Axis` padding is
prepended rather than appended (second conjunct); and an index tuple longer
than the rank is stored with length exceeding the rank (third conjunct). -/
theorem multiindex_ellipsis_mangled :
    MultiIndex_init [.ellipsis] 2 = .error .duplicateEllipsis
    ∧ MultiIndex_init [.intLit 0] 2 = .ok [.axis, .fixed 0]
    ∧ MultiIndex_init [.intLit 0, .intLit 1, .intLit 2] 2 =
        .ok [.fixed 0, .fixed 1, .fixed 2] :=
  ⟨rfl, rfl, rfl⟩

/-- Helper: each position of an index tuple is a fixed index, a symbolic
index or an axis, so the three tallies sum to the tuple length. -/
theorem total_split (l : List UflIdx) :
    ∀ i, (enumFixed i l).length + (l.filterMap getSymCount).length
      + l.countP isAxis = l.length := by
  induction l with
  | nil => intro i; rfl
  | cons x l ih =>
    intro i
    have h := ih (i + 1)
    cases x with
    | symbolic c =>
      simp [enumFixed, List.countP_cons, getSymCount, isAxis]
      omega
    | fixed v =>
      simp [enumFixed, List.countP_cons, getSymCount, isAxis]
      omega
    | axis =>
      simp [enumFixed, List.countP_cons, getSymCount, isAxis]
      omega

/-- Helper: when every element of a list occurs at most twice, the number of
elements occurring once plus twice the number occurring twice is the list
length. -/
theorem counts_split (s : List Nat) (hb : ∀ c ∈ s, s.count c ≤ 2) :
    (s.dedup.filter (fun c => decide (s.count c = 1))).length
      + 2 * (s.dedup.filter (fun c => decide (s.count c = 2))).length
      = s.length := by
  classical
  have hsum : ∑ a ∈ s.toFinset, s.count a = s.length := by
    simp
  have hsplit := Finset.sum_filter_add_sum_filter_not s.toFinset
    (fun a => s.count a = 1) (fun a => s.count a)
  have hB : s.toFinset.filter (fun a => ¬ s.count a = 1)
      = s.toFinset.filter (fun a => s.count a = 2) := by
    apply Finset.filter_congr
    intro a ha
    have h1 : 0 < s.count a := List.count_pos_iff.mpr (List.mem_toFinset.mp ha)
    have h2 := hb a (List.mem_toFinset.mp ha)
    constructor
    · intro hne
      omega
    · intro h2eq
      omega
  have hA : ∑ a ∈ s.toFinset.filter (fun a => s.count a = 1), s.count a
      = (s.toFinset.filter (fun a => s.count a = 1)).card := by
    rw [Finset.sum_congr rfl (fun a ha => (Finset.mem_filter.mp ha).2)]
    simp
  have hBsum : ∑ a ∈ s.toFinset.filter (fun a => s.count a = 2), s.count a
      = 2 * (s.toFinset.filter (fun a => s.count a = 2)).card := by
    rw [Finset.sum_congr rfl (fun a ha => (Finset.mem_filter.mp ha).2)]
    simp [Nat.mul_comm]
  have hdd : s.dedup.toFinset = s.toFinset := by
    apply Finset.ext
    intro a
    simp [List.mem_toFinset, List.mem_dedup]
  have hlen1 : (s.dedup.filter (fun c => decide (s.count c = 1))).length
      = (s.toFinset.filter (fun a => s.count a = 1)).card := by
    rw [← List.toFinset_card_of_nodup (s.nodup_dedup.filter _), List.toFinset_filter,
      hdd]
    congr 1
    apply Finset.filter_congr
    intro a ha
    simp
  have hlen2 : (s.dedup.filter (fun c => decide (s.count c = 2))).length
      = (s.toFinset.filter (fun a => s.count a = 2)).card := by
    rw [← List.toFinset_card_of_nodup (s.nodup_dedup.filter _), List.toFinset_filter,
      hdd]
    congr 1
    apply Finset.filter_congr
    intro a ha
    simp
  rw [hlen1, hlen2]
  rw [hB, hA, hBsum] at hsplit
  omega

/-- Helper: `extract_indices` raises exactly when some symbolic index occurs
more than twice; in particular the final bookkeeping assertion (the
`logicBreach` branch) never fires. -/
theorem extract_indices_error_iff (indices : List UflIdx) :
    (∃ e, extract_indices indices = .error e)
      ↔ ∃ c, 2 < (indices.filterMap getSymCount).count c := by
  simp only [extract_indices]
  by_cases hall : ((indices.filterMap getSymCount).dedup.all
      fun c => decide ((indices.filterMap getSymCount).count c ≤ 2)) = true
  · rw [hall]
    simp only [Bool.not_true, Bool.false_eq_true, if_false]
    have hbound : ∀ c ∈ indices.filterMap getSymCount,
        (indices.filterMap getSymCount).count c ≤ 2 := by
      intro c hc
      have := List.all_eq_true.mp hall c (List.mem_dedup.mpr hc)
      exact of_decide_eq_true this
    have hlen : (enumFixed 0 indices).length
        + ((indices.filterMap getSymCount).dedup.filter
            (fun c => decide ((indices.filterMap getSymCount).count c = 1))).length
        + 2 * ((indices.filterMap getSymCount).dedup.filter
            (fun c => decide ((indices.filterMap getSymCount).count c = 2))).length
        + indices.countP isAxis = indices.length := by
      have h1 := total_split indices 0
      have h2 := counts_split (indices.filterMap getSymCount) hbound
      omega
    rw [if_neg (by omega)]
    constructor
    · rintro ⟨e, he⟩
      exact Except.noConfusion he
    · rintro ⟨c, hc⟩
      have hmem : c ∈ indices.filterMap getSymCount :=
        List.count_pos_iff.mp (by omega)
      have := hbound c hmem
      omega
  · rw [Bool.not_eq_true] at hall
    rw [hall]
    simp only [Bool.not_false, if_true]
    constructor
    · intro _
      have hex := List.all_eq_false.mp hall
      obtain ⟨c, hc, hcf⟩ := hex
      refine ⟨c, ?_⟩
      have hcf2 : decide ((indices.filterMap getSymCount).count c ≤ 2) = false :=
        (Bool.not_eq_true _) ▸ hcf
      have := of_decide_eq_false hcf2
      omega
    · intro _
      exact ⟨.tooManyRepetitions, rfl⟩

end UflIndexing

namespace Ufl

/-- Helper: inverting a successful registration - the typecode counter
advanced by one, the handler set gained the derived name, the assigned
typecode is the previous counter value, and the consistency assertions
passed. -/
theorem register_ok_inv {cls : KindDecl} {st st1 : RegState} {a : ClsAttrs}
    (h : _ufl_type_decorator_ cls st = .ok (st1, a)) :
    st1.numTypecodes = st.numTypecodes + 1
    ∧ st1.allHandlerNames = setAdd st.allHandlerNames (camel2underscore cls.name)
    ∧ a.typecode = st.numTypecodes
    ∧ st1.consistent := by
  unfold _ufl_type_decorator_ at h
  simp only [] at h
  split at h
  · exact Except.noConfusion h
  · split at h
    · exact Except.noConfusion h
    · split at h
      · exact Except.noConfusion h
      · split at h
        · exact Except.noConfusion h
        · split at h
          · exact Except.noConfusion h
          · split at h
            · exact Except.noConfusion h
            · split at h
              · exact Except.noConfusion h
              · rename_i hterm hassert hnum hterm2
                rw [Except.ok.injEq, Prod.mk.injEq] at h
                obtain ⟨hst, ha⟩ := h
                subst hst
                subst ha
                refine ⟨rfl, rfl, rfl, ?_⟩
                simpa [RegState.consistent] using hassert

end Ufl

namespace Ufl

/-- C3: registering a kind whose derived handler name already belongs to a
previously registered kind fails: the handler-name set does not grow while
the typecode count does, so the consistency assertion of line 136 raises.
The invariant hypothesis holds in every registry state reachable by
successful registrations. -/
theorem handler_collision_fails (cls : KindDecl) (st : RegState)
    (hinv : st.allHandlerNames.length = st.numTypecodes)
    (hcol : camel2underscore cls.name ∈ st.allHandlerNames) :
    ∃ e, _ufl_type_decorator_ cls st = .error e := by
  cases h : _ufl_type_decorator_ cls st with
  | error e => exact ⟨e, rfl⟩
  | ok p =>
    exfalso
    obtain ⟨hnum, hhand, _, hcons⟩ := register_ok_inv h
    have hset : setAdd st.allHandlerNames (camel2underscore cls.name)
        = st.allHandlerNames := by
      unfold setAdd
      exact if_pos hcol
    obtain ⟨hc1, _, _, _⟩ := hcons
    rw [hhand, hset] at hc1
    omega

/-- Witness for `handler_collision_fails`: after registering a kind named
"Foo", registering a second, different kind also displayed as "Foo" derives
the same handler name and fails. -/
theorem handler_collision_fails_witness :
    ∃ e, _ufl_type_decorator_ { namedKind "Foo" with isShaping := true } afterFoo
      = .error e :=
  handler_collision_fails _ afterFoo (by decide) (by decide)

/-- Helper: a successful registration sequence from a consistent state assigns
the consecutive typecodes starting at the state's typecode counter and lands
in a consistent state. -/
theorem registerMany_ok {ks : List KindDecl} {st st2 : RegState} {tcs : List Nat}
    (hc : st.consistent) (h : registerMany ks st = .ok (st2, tcs)) :
    tcs = List.range' st.numTypecodes ks.length
    ∧ st2.numTypecodes = st.numTypecodes + ks.length
    ∧ st2.consistent := by
  induction ks generalizing st tcs with
  | nil =>
    simp only [registerMany, Except.ok.injEq, Prod.mk.injEq] at h
    obtain ⟨h1, h2⟩ := h
    subst h1
    subst h2
    exact ⟨rfl, rfl, hc⟩
  | cons k rest ih =>
    simp only [registerMany] at h
    split at h
    · exact Except.noConfusion h
    · rename_i stm attrs heq
      split at h
      · exact Except.noConfusion h
      · rename_i st3 tcs3 heq2
        rw [Except.ok.injEq, Prod.mk.injEq] at h
        obtain ⟨h1, h2⟩ := h
        subst h1
        subst h2
        obtain ⟨hn, hh, htc, hcons⟩ := register_ok_inv heq
        obtain ⟨ht3, hn3, hcons3⟩ := ih hcons heq2
        refine ⟨?_, by simp only [List.length_cons]; omega, hcons3⟩
        rw [ht3, htc, hn]
        rfl

/-- Helper: a successful registration sequence decomposes along any split of
the kind list, so every prefix also registers successfully. -/
theorem registerMany_append {ks1 ks2 : List KindDecl} {st st2 : RegState}
    {tcs : List Nat} (h : registerMany (ks1 ++ ks2) st = .ok (st2, tcs)) :
    ∃ stm tcs1 tcs2, registerMany ks1 st = .ok (stm, tcs1)
      ∧ registerMany ks2 stm = .ok (st2, tcs2) ∧ tcs = tcs1 ++ tcs2 := by
  induction ks1 generalizing st tcs with
  | nil => exact ⟨st, [], tcs, rfl, h, rfl⟩
  | cons k rest ih =>
    rw [List.cons_append] at h
    simp only [registerMany] at h
    split at h
    · exact Except.noConfusion h
    · rename_i stm attrs heq
      split at h
      · exact Except.noConfusion h
      · rename_i st3 tcs3 heq2
        rw [Except.ok.injEq, Prod.mk.injEq] at h
        obtain ⟨h1, h2⟩ := h
        subst h1
        subst h2
        obtain ⟨stmid, tcs1, tcs2, ha, hb, hc2⟩ := ih heq2
        refine ⟨stmid, attrs.typecode :: tcs1, tcs2, ?_, hb, by rw [hc2]; rfl⟩
        simp only [registerMany, heq, ha]

/-- C7: every successful registration sequence from the empty registry is
assigned the unique, consecutive typecodes 0, 1, ... in registration order,
and after the whole sequence - and after every prefix of it, that is after
every registration - the number of typecodes equals the number of registered
classes, handler names and per-kind instance-count slots. -/
theorem typecode_assignment_spec (ks : List KindDecl) (st2 : RegState)
    (tcs : List Nat) (h : registerMany ks RegState.start = .ok (st2, tcs)) :
    tcs = List.range ks.length
    ∧ st2.numTypecodes = ks.length
    ∧ st2.consistent
    ∧ (∀ ks1 ks2, ks = ks1 ++ ks2 →
        ∃ stm tcs1, registerMany ks1 RegState.start = .ok (stm, tcs1)
          ∧ tcs1 = List.range ks1.length ∧ stm.consistent) := by
  have hstart : RegState.start.consistent := ⟨rfl, rfl, rfl, rfl⟩
  obtain ⟨h1, h2, h3⟩ := registerMany_ok hstart h
  refine ⟨?_, by simpa [RegState.start] using h2, h3, ?_⟩
  · rw [h1, List.range_eq_range']
    rfl
  · intro ks1 ks2 hsplit
    subst hsplit
    obtain ⟨stm, tcs1, tcs2, ha, hb, hc2⟩ := registerMany_append h
    obtain ⟨hx, hy, hz⟩ := registerMany_ok hstart ha
    refine ⟨stm, tcs1, ha, ?_, hz⟩
    rw [hx, List.range_eq_range']
    rfl

/-- Witness for `typecode_assignment_spec`: registering the kinds "Foo" and
"Bar" from the empty registry assigns typecodes 0 and 1 and keeps the four
bookkeeping collections equally sized. -/
theorem typecode_assignment_spec_witness :
    ([0, 1] : List Nat) = List.range 2
    ∧ (RegState.mk 2 ["Foo", "Bar"] ["foo", "bar"] [0, 0] [0, 0]).numTypecodes = 2
    ∧ (RegState.mk 2 ["Foo", "Bar"] ["foo", "bar"] [0, 0] [0, 0]).consistent
    ∧ (∀ ks1 ks2, [namedKind "Foo", namedKind "Bar"] = ks1 ++ ks2 →
        ∃ stm tcs1, registerMany ks1 RegState.start = .ok (stm, tcs1)
          ∧ tcs1 = List.range ks1.length ∧ stm.consistent) :=
  typecode_assignment_spec [namedKind "Foo", namedKind "Bar"]
    (RegState.mk 2 ["Foo", "Bar"] ["foo", "bar"] [0, 0] [0, 0]) [0, 1] rfl

end Ufl

namespace UflPipeline

/-- Helper: folding `pymax2` from a known integer is the maximum of that
integer and all present values. -/
theorem foldl_pymax2_some (l : List (Option Nat)) (a : Nat) :
    l.foldl pymax2 (some a) = some ((l.filterMap id).foldl max a) := by
  induction l generalizing a with
  | nil => rfl
  | cons x l ih =>
    cases x with
    | none =>
      show l.foldl pymax2 (pymax2 (some a) none) = _
      rw [show pymax2 (some a) none = some a from rfl, ih]
      simp
    | some y =>
      show l.foldl pymax2 (pymax2 (some a) (some y)) = _
      rw [show pymax2 (some a) (some y) = some (max a y) from rfl, ih]
      simp

/-- Helper: folding `pymax2` from `None` yields `None` exactly when no value
is present, else the maximum of the present values. -/
theorem foldl_pymax2_none (l : List (Option Nat)) :
    l.foldl pymax2 none =
      match l.filterMap id with
      | [] => none
      | d :: ds => some (ds.foldl max d) := by
  induction l with
  | nil => rfl
  | cons x l ih =>
    cases x with
    | none =>
      show l.foldl pymax2 (pymax2 none none) = _
      rw [show pymax2 none none = (none : Option Nat) from rfl, ih]
      simp
    | some y =>
      show l.foldl pymax2 (pymax2 none (some y)) = _
      rw [show pymax2 none (some y) = some y from rfl, foldl_pymax2_some]
      simp

/-- Helper: shifting the start value of a `max` fold. -/
theorem foldl_max_shift (l : List Nat) (a : Nat) :
    l.foldl max a = max a (l.foldl max 0) := by
  induction l generalizing a with
  | nil => simp
  | cons c l ih =>
    show l.foldl max (max a c) = max a ((c :: l).foldl max 0)
    rw [ih (max a c), show (c :: l).foldl max 0 = l.foldl max (max 0 c) from rfl,
      ih (max 0 c)]
    simp [Nat.max_assoc]

/-- Helper: the degrees list of the elements drives `_auto_select_degree`. -/
theorem auto_select_degree_eq (els : List FElement) :
    _auto_select_degree els =
      match els.filterMap (fun e => e.degree) with
      | [] => 1
      | d :: ds => max 1 (ds.foldl max d) := by
  cases els with
  | nil => rfl
  | cons e0 rest =>
    show max 1 (match ((e0 :: rest).map fun e => e.degree).foldl pymax2 none with
        | none => 1
        | some d => d) = _
    rw [foldl_pymax2_none, List.filterMap_map, Function.id_comp]
    cases hfm : (e0 :: rest).filterMap (fun e => e.degree) with
    | nil => rfl
    | cons d ds => rfl

/-- Helper: a pair of the successful mapping comes from `mapElement` on its
first component. -/
theorem mapElements_ok_mem {domains : List Nat} {common : Nat}
    {l : List FElement} {m : List (FElement × FElement)} {e e1 : FElement}
    (h : mapElements domains common l = .ok m) (hm : (e, e1) ∈ m) :
    mapElement domains common e = .ok e1 := by
  induction l generalizing m with
  | nil =>
    simp only [mapElements, Except.ok.injEq] at h
    subst h
    exact absurd hm (List.not_mem_nil _)
  | cons a l ih =>
    simp only [mapElements] at h
    split at h
    · exact Except.noConfusion h
    · rename_i a1 heq
      split at h
      · exact Except.noConfusion h
      · rename_i tail heq2
        rw [Except.ok.injEq] at h
        subst h
        rcases List.mem_cons.mp hm with hpair | htail
        · rw [Prod.mk.injEq] at hpair
          obtain ⟨h1, h2⟩ := hpair
          subst h1
          subst h2
          exact heq
        · exact ih heq2 htail

/-- C5: when element mapping replaces a missing degree, the substituted degree
is `_auto_select_degree` of all elements of the form (sub-elements included),
which is the maximum declared degree floored at 1 and exactly 1 when no
element declares a degree. -/
theorem element_mapping_degree_default (form : FormModel)
    (m : List (FElement × FElement)) (e e1 : FElement)
    (hm : _compute_element_mapping form = .ok m) (hmem : (e, e1) ∈ m)
    (hdeg : e.degree = none) :
    e1.degree = some (_auto_select_degree form.elements)
    ∧ (form.elements.filterMap (fun el => el.degree) = [] →
        _auto_select_degree form.elements = 1)
    ∧ (∀ d ds, form.elements.filterMap (fun el => el.degree) = d :: ds →
        _auto_select_degree form.elements = max 1 ((d :: ds).foldl max 0)) := by
  refine ⟨?_, ?_, ?_⟩
  · have hme := mapElements_ok_mem hm hmem
    unfold mapElement at hme
    rw [hdeg] at hme
    cases hdom : e.domain with
    | none =>
      rw [hdom] at hme
      cases hds : form.domains with
      | nil =>
        rw [hds] at hme
        exact Except.noConfusion hme
      | cons d rest =>
        cases rest with
        | nil =>
          rw [hds] at hme
          rw [Except.ok.injEq] at hme
          subst hme
          rfl
        | cons d2 rest2 =>
          rw [hds] at hme
          exact Except.noConfusion hme
    | some d =>
      rw [hdom] at hme
      rw [Except.ok.injEq] at hme
      subst hme
      rfl
  · intro hnil
    rw [auto_select_degree_eq, hnil]
  · intro d ds hcons
    rw [auto_select_degree_eq, hcons]
    show max 1 (ds.foldl max d) = max 1 (ds.foldl max (max 0 d))
    rw [Nat.zero_max]

/-- Witness for `element_mapping_degree_default`: a form with one element
lacking a degree and one of degree 3 substitutes degree 3. -/
theorem element_mapping_degree_default_witness :
    (FElement.mk (some 0) (some 3)).degree
      = some (_auto_select_degree [FElement.mk (some 0) none, FElement.mk (some 0) (some 3)])
    ∧ (([FElement.mk (some 0) none, FElement.mk (some 0) (some 3)] : List FElement).filterMap
        (fun el => el.degree) = [] →
        _auto_select_degree [FElement.mk (some 0) none, FElement.mk (some 0) (some 3)] = 1)
    ∧ (∀ d ds, ([FElement.mk (some 0) none, FElement.mk (some 0) (some 3)] : List FElement).filterMap
        (fun el => el.degree) = d :: ds →
        _auto_select_degree [FElement.mk (some 0) none, FElement.mk (some 0) (some 3)]
          = max 1 ((d :: ds).foldl max 0)) :=
  element_mapping_degree_default
    (FormModel.mk [FElement.mk (some 0) none, FElement.mk (some 0) (some 3)] [0])
    [(FElement.mk (some 0) none, FElement.mk (some 0) (some 3)),
     (FElement.mk (some 0) (some 3), FElement.mk (some 0) (some 3))]
    (FElement.mk (some 0) none) (FElement.mk (some 0) (some 3))
    rfl (by simp) rfl

/-- Helper: the element loop fails as soon as it reaches an element without a
domain while the form does not have exactly one domain; the only error the
loop can raise is `ambiguousDomain`. -/
theorem mapElements_missing_domain {domains : List Nat} {common : Nat}
    {l : List FElement} {e : FElement} (hmem : e ∈ l) (hdom : e.domain = none)
    (hlen : domains.length ≠ 1) :
    mapElements domains common l = .error .ambiguousDomain := by
  induction l with
  | nil => exact absurd hmem (List.not_mem_nil _)
  | cons a l ih =>
    rcases List.mem_cons.mp hmem with rfl | htail
    · have ha : mapElement domains common e = .error .ambiguousDomain := by
        unfold mapElement
        rw [hdom]
        cases hds : domains with
        | nil => rfl
        | cons d rest =>
          cases rest with
          | nil =>
            rw [hds] at hlen
            exact absurd rfl hlen
          | cons d2 rest2 => rfl
      simp only [mapElements, ha]
    · cases hres : mapElement domains common a with
      | error err =>
        cases err
        simp only [mapElements, hres]
      | ok a1 =>
        simp only [mapElements, hres, ih htail]

/-- C6 amended: a form spanning two distinct domains fails with
`AmbiguousDomainError` provided some element of the form lacks a declared
domain (the counterexample `two_domain_mapping_succeeds` shows the claim's
unconditional version is false). -/
theorem element_mapping_missing_domain_fails (form : FormModel) (e : FElement)
    (hmem : e ∈ form.elements) (hdom : e.domain = none)
    (hlen : form.domains.length = 2) :
    _compute_element_mapping form = .error .ambiguousDomain :=
  mapElements_missing_domain hmem hdom (by omega)

/-- Witness for `element_mapping_missing_domain_fails`: one domainless element
in a form over the two domains 0 and 1. -/
theorem element_mapping_missing_domain_fails_witness :
    _compute_element_mapping (FormModel.mk [FElement.mk none (some 1)] [0, 1])
      = .error .ambiguousDomain :=
  element_mapping_missing_domain_fails
    (FormModel.mk [FElement.mk none (some 1)] [0, 1])
    (FElement.mk none (some 1)) (by simp) rfl rfl

/-- Helper: membership in a Python set after one insertion. -/
theorem mem_pySetInsert (s : List Coefficient) (a c : Coefficient) :
    c ∈ pySetInsert s a ↔ c ∈ s ∨ c = a := by
  unfold pySetInsert
  split
  · rename_i hmem
    constructor
    · exact Or.inl
    · rintro (h | rfl)
      · exact h
      · exact hmem
  · simp

/-- Helper: membership in a Python set after updating with one group. -/
theorem mem_foldl_pySetInsert (g acc : List Coefficient) (c : Coefficient) :
    c ∈ g.foldl pySetInsert acc ↔ c ∈ acc ∨ c ∈ g := by
  induction g generalizing acc with
  | nil => simp
  | cons a g ih =>
    show c ∈ g.foldl pySetInsert (pySetInsert acc a) ↔ _
    rw [ih, mem_pySetInsert]
    simp [or_assoc]

/-- Helper: `pySetInsert` keeps the set duplicate-free. -/
theorem nodup_pySetInsert (s : List Coefficient) (a : Coefficient)
    (h : s.Nodup) : (pySetInsert s a).Nodup := by
  unfold pySetInsert
  split
  · exact h
  · rename_i hnot
    simp [List.nodup_append, h, hnot]

/-- Helper: updating with one group keeps the set duplicate-free. -/
theorem nodup_foldl_pySetInsert (g acc : List Coefficient) (h : acc.Nodup) :
    (g.foldl pySetInsert acc).Nodup := by
  induction g generalizing acc with
  | nil => exact h
  | cons a g ih => exact ih _ (nodup_pySetInsert _ _ h)

/-- Helper: membership in the union of all groups. -/
theorem mem_unionCoeffs (groups : List (List Coefficient)) (c : Coefficient) :
    c ∈ unionCoeffs groups ↔ ∃ g ∈ groups, c ∈ g := by
  have main : ∀ (gs : List (List Coefficient)) (acc : List Coefficient),
      c ∈ gs.foldl (fun acc g => g.foldl pySetInsert acc) acc
        ↔ c ∈ acc ∨ ∃ g ∈ gs, c ∈ g := by
    intro gs
    induction gs with
    | nil => simp
    | cons g gs ih =>
      intro acc
      show c ∈ gs.foldl _ (g.foldl pySetInsert acc) ↔ _
      rw [ih, mem_foldl_pySetInsert]
      simp [or_assoc]
  rw [unionCoeffs, main]
  simp

/-- Helper: the union of all groups is duplicate-free. -/
theorem nodup_unionCoeffs (groups : List (List Coefficient)) :
    (unionCoeffs groups).Nodup := by
  have main : ∀ (gs : List (List Coefficient)) (acc : List Coefficient),
      acc.Nodup → (gs.foldl (fun acc g => g.foldl pySetInsert acc) acc).Nodup := by
    intro gs
    induction gs with
    | nil => exact fun acc h => h
    | cons g gs ih => exact fun acc h => ih _ (nodup_foldl_pySetInsert _ _ h)
  exact main groups [] List.nodup_nil

/-- C4: the reduced coefficient list contains exactly the coefficients of the
original form referenced by at least one group, is sorted by the coefficient
count (the coefficient's identity), and is the same list for any reordering
of the groups. -/
theorem reduced_coefficients_spec (groups groups2 : List (List Coefficient))
    (orig : List Coefficient)
    (hsub : ∀ g ∈ groups, ∀ c ∈ g, c ∈ orig)
    (hperm : List.Perm groups groups2) :
    (∀ c, c ∈ reduced_coefficients groups ↔ (c ∈ orig ∧ ∃ g ∈ groups, c ∈ g))
    ∧ (reduced_coefficients groups).Sorted (· ≤ ·)
    ∧ reduced_coefficients groups = reduced_coefficients groups2 := by
  refine ⟨?_, ?_, ?_⟩
  · intro c
    unfold reduced_coefficients
    rw [List.mem_insertionSort, mem_unionCoeffs]
    constructor
    · rintro ⟨g, hg, hc⟩
      exact ⟨hsub g hg c hc, g, hg, hc⟩
    · rintro ⟨-, hex⟩
      exact hex
  · exact List.sorted_insertionSort _ _
  · have hpermu : List.Perm (unionCoeffs groups) (unionCoeffs groups2) := by
      rw [List.perm_ext_iff_of_nodup (nodup_unionCoeffs _) (nodup_unionCoeffs _)]
      intro a
      rw [mem_unionCoeffs, mem_unionCoeffs]
      constructor
      · rintro ⟨g, hg, hc⟩
        exact ⟨g, hperm.mem_iff.mp hg, hc⟩
      · rintro ⟨g, hg, hc⟩
        exact ⟨g, hperm.mem_iff.mpr hg, hc⟩
    exact List.eq_of_perm_of_sorted
      (((List.perm_insertionSort _ _).trans hpermu).trans
        (List.perm_insertionSort _ _).symm)
      (List.sorted_insertionSort _ _) (List.sorted_insertionSort _ _)

/-- Witness for `reduced_coefficients_spec`: groups referencing the
coefficients with counts 2, 0 and 5, traversed in either order. -/
theorem reduced_coefficients_spec_witness :
    (∀ c, c ∈ reduced_coefficients [[2, 0], [5]]
        ↔ (c ∈ [0, 2, 5, 7] ∧ ∃ g ∈ [[2, 0], [5]], c ∈ g))
    ∧ (reduced_coefficients [[2, 0], [5]]).Sorted (· ≤ ·)
    ∧ reduced_coefficients [[2, 0], [5]] = reduced_coefficients [[5], [2, 0]] :=
  reduced_coefficients_spec [[2, 0], [5]] [[5], [2, 0]] [0, 2, 5, 7]
    (by decide) (by decide)

/-- Helper: looking up the key just set. -/
theorem lookup_dictSet_self (d : List (String × Nat)) (k : String) (v : Nat) :
    List.lookup k (dictSet d k v) = some v := by
  induction d with
  | nil => simp [dictSet, List.lookup]
  | cons p rest ih =>
    obtain ⟨k1, v1⟩ := p
    unfold dictSet
    split
    · simp [List.lookup]
    · rename_i hne
      simp only [List.lookup]
      rw [show (k == k1) = false from by simpa using fun h => hne h.symm]
      exact ih

/-- Helper: setting one key leaves the lookup of any other key unchanged. -/
theorem lookup_dictSet_other (d : List (String × Nat)) (k t : String) (v : Nat)
    (h : t ≠ k) : List.lookup t (dictSet d k v) = List.lookup t d := by
  induction d with
  | nil =>
    simp only [dictSet, List.lookup]
    rw [show (t == k) = false from by simpa using h]
  | cons p rest ih =>
    obtain ⟨k1, v1⟩ := p
    unfold dictSet
    split
    · rename_i heq
      simp only [List.lookup]
      rw [show (t == k) = false from by simpa using h,
        show (t == k1) = false from by simpa using fun hh => h (hh.trans heq)]
    · simp only [List.lookup]
      cases hbeq : t == k1 with
      | true => rfl
      | false => exact ih

/-- Helper: the per-key trace of the `_compute_num_sub_domains` fold. -/
theorem lookup_nsd_fold (gs : List ItgGroup) (t : String) :
    ∀ d, List.lookup t
        (gs.foldl
          (fun d g =>
            dictSet d g.integral_type
              (pyMaxUpd (List.lookup g.integral_type d)
                (subContribution g.subdomain_id))) d)
      = valFold (List.lookup t d) (tContribs t gs) := by
  induction gs with
  | nil => intro d; rfl
  | cons g gs ih =>
    intro d
    show List.lookup t (gs.foldl _
        (dictSet d g.integral_type
          (pyMaxUpd (List.lookup g.integral_type d)
            (subContribution g.subdomain_id)))) = _
    by_cases ht : g.integral_type = t
    · rw [ih, ht, lookup_dictSet_self]
      have hc : tContribs t (g :: gs)
          = subContribution g.subdomain_id :: tContribs t gs := by
        simp [tContribs, ht]
      rw [hc]
      rfl
    · rw [ih, lookup_dictSet_other _ _ _ _ (fun hh => ht hh.symm)]
      have hc : tContribs t (g :: gs) = tContribs t gs := by
        simp [tContribs, ht]
      rw [hc]

/-- Helper: folding contributions from a known value is the `max` fold. -/
theorem valFold_some (cs : List Nat) : ∀ p, valFold (some p) cs = some (cs.foldl max p) := by
  induction cs with
  | nil => intro p; rfl
  | cons c cs ih =>
    intro p
    show valFold (some (pyMaxUpd (some p) c)) cs = _
    rw [show pyMaxUpd (some p) c = max p c from rfl, ih]
    rfl

/-- Helper: `max` distributes over adding one on both sides. -/
theorem max_shift_one (n F : Nat) : max (n + 1) (1 + F) = 1 + max n F := by
  rcases Nat.le_total n F with h | h
  · rw [Nat.max_eq_right h]
    rw [Nat.max_eq_right (show n + 1 ≤ 1 + F by omega)]
  · rw [Nat.max_eq_left h]
    rw [Nat.max_eq_left (show 1 + F ≤ n + 1 by omega)]
    omega

/-- Helper: the contribution maximum is 0 when every subdomain id of the type
is a string, else one more than the maximum integer id. -/
theorem contribs_ids (t : String) (gs : List ItgGroup) :
    (intIds t gs = [] → (tContribs t gs).foldl max 0 = 0)
    ∧ (intIds t gs ≠ [] →
        (tContribs t gs).foldl max 0 = 1 + (intIds t gs).foldl max 0) := by
  induction gs with
  | nil => exact ⟨fun _ => rfl, fun h => absurd rfl h⟩
  | cons g gs ih =>
    by_cases ht : g.integral_type = t
    · cases hsid : g.subdomain_id with
      | inl s =>
        have hc : tContribs t (g :: gs) = 0 :: tContribs t gs := by
          simp [tContribs, ht, subContribution, hsid]
        have hi : intIds t (g :: gs) = intIds t gs := by
          simp [intIds, ht, hsid]
        rw [hc, hi]
        have hf : (0 :: tContribs t gs).foldl max 0 = (tContribs t gs).foldl max 0 := rfl
        rw [hf]
        exact ih
      | inr n =>
        have hc : tContribs t (g :: gs) = (n + 1) :: tContribs t gs := by
          simp [tContribs, ht, subContribution, hsid]
        have hi : intIds t (g :: gs) = n :: intIds t gs := by
          simp [intIds, ht, hsid]
        rw [hc, hi]
        refine ⟨fun h => List.noConfusion h, fun _ => ?_⟩
        rw [show ((n + 1) :: tContribs t gs).foldl max 0
            = (tContribs t gs).foldl max (n + 1) from by
          show (tContribs t gs).foldl max (max 0 (n + 1)) = _
          rw [Nat.zero_max]]
        rw [show (n :: intIds t gs).foldl max 0 = (intIds t gs).foldl max n from by
          show (intIds t gs).foldl max (max 0 n) = _
          rw [Nat.zero_max]]
        rw [foldl_max_shift _ (n + 1), foldl_max_shift _ n]
        obtain ⟨ih1, ih2⟩ := ih
        cases hids : intIds t gs with
        | nil =>
          rw [hids] at ih1
          rw [ih1 rfl]
          simp only [List.foldl_nil, Nat.max_zero]
          omega
        | cons m ms =>
          rw [hids] at ih2
          rw [ih2 (fun h => List.noConfusion h)]
          exact max_shift_one n _
    · have hc : tContribs t (g :: gs) = tContribs t gs := by
        simp [tContribs, ht]
      have hi : intIds t (g :: gs) = intIds t gs := by
        simp [intIds, ht]
      rw [hc, hi]
      exact ih

/-- Helper: the contribution list of an occurring integral type is
nonempty. -/
theorem tContribs_ne_nil (t : String) (gs : List ItgGroup)
    (hocc : t ∈ gs.map (fun g => g.integral_type)) : tContribs t gs ≠ [] := by
  induction gs with
  | nil => simp at hocc
  | cons g gs ih =>
    by_cases ht : g.integral_type = t
    · have hc : tContribs t (g :: gs)
          = subContribution g.subdomain_id :: tContribs t gs := by
        simp [tContribs, ht]
      rw [hc]
      exact fun h => List.noConfusion h
    · have hc : tContribs t (g :: gs) = tContribs t gs := by
        simp [tContribs, ht]
      rw [hc]
      rcases List.mem_map.mp hocc with ⟨g1, hg1, hgt⟩
      rcases List.mem_cons.mp hg1 with rfl | htail
      · exact absurd hgt ht
      · exact ih (List.mem_map.mpr ⟨g1, htail, hgt⟩)

/-- C10: for every integral type occurring in the groups, the stored subdomain
count is 0 when every subdomain id of that type is the string sentinel, and
otherwise 1 plus the maximum integer subdomain id of that type. -/
theorem num_sub_domains_spec (gs : List ItgGroup) (t : String)
    (hocc : t ∈ gs.map (fun g => g.integral_type)) :
    (intIds t gs = [] →
      List.lookup t (_compute_num_sub_domains gs) = some 0)
    ∧ (intIds t gs ≠ [] →
      List.lookup t (_compute_num_sub_domains gs)
        = some (1 + (intIds t gs).foldl max 0)) := by
  have hfold := lookup_nsd_fold gs t []
  rw [show List.lookup t ([] : List (String × Nat)) = none from rfl] at hfold
  obtain ⟨c, cs, hc⟩ : ∃ c cs, tContribs t gs = c :: cs := by
    cases h : tContribs t gs with
    | nil => exact absurd h (tContribs_ne_nil t gs hocc)
    | cons c cs => exact ⟨c, cs, rfl⟩
  have hval : List.lookup t (_compute_num_sub_domains gs)
      = some ((tContribs t gs).foldl max 0) := by
    rw [show _compute_num_sub_domains gs = gs.foldl
        (fun d g =>
          dictSet d g.integral_type
            (pyMaxUpd (List.lookup g.integral_type d)
              (subContribution g.subdomain_id))) [] from rfl,
      hfold, hc]
    rw [show valFold none (c :: cs) = valFold (some c) cs from rfl, valFold_some]
    rw [show (c :: cs).foldl max 0 = cs.foldl max (max 0 c) from rfl, Nat.zero_max]
  obtain ⟨h1, h2⟩ := contribs_ids t gs
  exact ⟨fun h => by rw [hval, h1 h], fun h => by rw [hval, h2 h]⟩

/-- Witness for `num_sub_domains_spec`: cell groups with subdomain ids 3 and
the string sentinel give the cell count 4; a facet type with only the
sentinel gives 0 (second application below). -/
theorem num_sub_domains_spec_witness :
    (intIds "cell" [ItgGroup.mk "cell" (.inr 3),
        ItgGroup.mk "cell" (.inl "otherwise"),
        ItgGroup.mk "exterior_facet" (.inl "otherwise")] = [] →
      List.lookup "cell" (_compute_num_sub_domains
        [ItgGroup.mk "cell" (.inr 3), ItgGroup.mk "cell" (.inl "otherwise"),
         ItgGroup.mk "exterior_facet" (.inl "otherwise")]) = some 0)
    ∧ (intIds "cell" [ItgGroup.mk "cell" (.inr 3),
        ItgGroup.mk "cell" (.inl "otherwise"),
        ItgGroup.mk "exterior_facet" (.inl "otherwise")] ≠ [] →
      List.lookup "cell" (_compute_num_sub_domains
        [ItgGroup.mk "cell" (.inr 3), ItgGroup.mk "cell" (.inl "otherwise"),
         ItgGroup.mk "exterior_facet" (.inl "otherwise")])
        = some (1 + (intIds "cell" [ItgGroup.mk "cell" (.inr 3),
            ItgGroup.mk "cell" (.inl "otherwise"),
            ItgGroup.mk "exterior_facet" (.inl "otherwise")]).foldl max 0)) :=
  num_sub_domains_spec
    [ItgGroup.mk "cell" (.inr 3), ItgGroup.mk "cell" (.inl "otherwise"),
     ItgGroup.mk "exterior_facet" (.inl "otherwise")] "cell" (by decide)

end UflPipeline

namespace UflTensors

/-- Helper: under the scalar-rank precondition, `ListVector.__init__` raises
the inconsistent-free-indices error exactly when some entry's free-index set
differs from the first entry's. -/
theorem listVector_malformed_iff (e0 : ScalarExpr) (es : List ScalarExpr)
    (hrank : ∀ e ∈ e0 :: es, e.rank = 0) :
    (ListVector_init (e0 :: es) = .error .malformedIndex
      ↔ ¬ ∀ e ∈ e0 :: es, sameFreeSet e0.free_indices e.free_indices = true) := by
  unfold ListVector_init
  have ha : ((e0 :: es).all fun e => decide (e.rank = 0)) = true := by
    rw [List.all_eq_true]
    intro e he
    exact decide_eq_true (hrank e he)
  rw [ha]
  simp only [Bool.not_true, Bool.false_eq_true, if_false]
  by_cases hb : ((e0 :: es).all fun e => sameFreeSet e0.free_indices e.free_indices) = true
  · rw [hb]
    simp only [if_true]
    constructor
    · intro h
      exact Except.noConfusion h
    · intro h
      exact absurd (List.all_eq_true.mp hb) h
  · rw [Bool.not_eq_true] at hb
    rw [hb]
    simp only [Bool.false_eq_true, if_false]
    constructor
    · intro _
      intro hforall
      rw [← List.all_eq_true] at hforall
      rw [hforall] at hb
      exact Bool.noConfusion hb
    · intro _
      trivial

/-- Helper: under the row-size and scalar-rank preconditions,
`ListMatrix.__init__` raises the inconsistent-free-indices error exactly when
some entry's free-index set differs from entry (0,0)'s. -/
theorem listMatrix_malformed_iff (e00 : ScalarExpr) (r0 : List ScalarExpr)
    (rows : List (List ScalarExpr))
    (hrow : ∀ row ∈ (e00 :: r0) :: rows, row.length = (e00 :: r0).length)
    (hrank : ∀ row ∈ (e00 :: r0) :: rows, ∀ e ∈ row, e.rank = 0) :
    (ListMatrix_init ((e00 :: r0) :: rows) = .error .malformedIndex
      ↔ ¬ ∀ row ∈ (e00 :: r0) :: rows, ∀ e ∈ row,
          sameFreeSet e00.free_indices e.free_indices = true) := by
  simp only [ListMatrix_init]
  have ha : (((e00 :: r0) :: rows).all
      fun row => decide (row.length = (e00 :: r0).length)) = true := by
    rw [List.all_eq_true]
    intro row hr
    exact decide_eq_true (hrow row hr)
  have hk : (((e00 :: r0) :: rows).all
      fun row => row.all fun e => decide (e.rank = 0)) = true := by
    rw [List.all_eq_true]
    intro row hr
    rw [List.all_eq_true]
    intro e he
    exact decide_eq_true (hrank row hr e he)
  rw [ha, hk]
  simp only [Bool.not_true, Bool.false_eq_true, if_false]
  by_cases hb : (((e00 :: r0) :: rows).all
      fun row => row.all fun e => sameFreeSet e00.free_indices e.free_indices) = true
  · rw [hb]
    simp only [if_true]
    constructor
    · intro h
      exact Except.noConfusion h
    · intro h
      refine absurd ?_ h
      intro row hr e he
      exact List.all_eq_true.mp (List.all_eq_true.mp hb row hr) e he
  · rw [Bool.not_eq_true] at hb
    rw [hb]
    simp only [Bool.false_eq_true, if_false]
    constructor
    · intro _
      intro hforall
      have : (((e00 :: r0) :: rows).all
          fun row => row.all fun e => sameFreeSet e00.free_indices e.free_indices) = true := by
        rw [List.all_eq_true]
        intro row hr
        rw [List.all_eq_true]
        intro e he
        exact hforall row hr e he
      rw [this] at hb
      exact Bool.noConfusion hb
    · intro _
      trivial

end UflTensors

/-- C9: a `MalformedIndexError` is raised exactly when an index tuple contains
more than two occurrences of the same symbolic index (`extract_indices`), or
when the entries of a list-literal vector or matrix have inconsistent
free-index sets (`ListVector.__init__` / `ListMatrix.__init__`, under their
scalar-rank and row-size preconditions, whose violations raise different
errors). -/
theorem malformed_index_iff :
    (∀ indices : List UflIndexing.UflIdx,
      (∃ e, UflIndexing.extract_indices indices = .error e)
        ↔ ∃ c, 2 < (indices.filterMap UflIndexing.getSymCount).count c)
    ∧ (∀ (e0 : UflTensors.ScalarExpr) (es : List UflTensors.ScalarExpr),
        (∀ e ∈ e0 :: es, e.rank = 0) →
        (UflTensors.ListVector_init (e0 :: es) = .error .malformedIndex
          ↔ ¬ ∀ e ∈ e0 :: es,
              UflTensors.sameFreeSet e0.free_indices e.free_indices = true))
    ∧ (∀ (e00 : UflTensors.ScalarExpr) (r0 : List UflTensors.ScalarExpr)
          (rows : List (List UflTensors.ScalarExpr)),
        (∀ row ∈ (e00 :: r0) :: rows, row.length = (e00 :: r0).length) →
        (∀ row ∈ (e00 :: r0) :: rows, ∀ e ∈ row, e.rank = 0) →
        (UflTensors.ListMatrix_init ((e00 :: r0) :: rows) = .error .malformedIndex
          ↔ ¬ ∀ row ∈ (e00 :: r0) :: rows, ∀ e ∈ row,
              UflTensors.sameFreeSet e00.free_indices e.free_indices = true)) :=
  ⟨UflIndexing.extract_indices_error_iff,
   UflTensors.listVector_malformed_iff,
   UflTensors.listMatrix_malformed_iff⟩

/-- Witness for `malformed_index_iff`: a triple repetition of one symbolic
index raises in `extract_indices`; a vector whose two scalar entries carry
different free indices raises the malformed-index error; a matrix whose
entries agree does not. -/
theorem malformed_index_iff_witness :
    (∃ e, UflIndexing.extract_indices
        [UflIndexing.UflIdx.symbolic 5, .symbolic 5, .symbolic 5] = .error e)
    ∧ UflTensors.ListVector_init
        [UflTensors.ScalarExpr.mk 0 [1], UflTensors.ScalarExpr.mk 0 [2]]
        = .error .malformedIndex
    ∧ UflTensors.ListMatrix_init
        [[UflTensors.ScalarExpr.mk 0 [1]], [UflTensors.ScalarExpr.mk 0 [1]]]
        ≠ .error .malformedIndex := by
  obtain ⟨hA, hB, hC⟩ := malformed_index_iff
  refine ⟨(hA _).mpr ⟨5, by decide⟩, ?_, ?_⟩
  · exact (hB (UflTensors.ScalarExpr.mk 0 [1]) [UflTensors.ScalarExpr.mk 0 [2]]
      (by decide)).mpr (by decide)
  · intro hcontra
    have hall := (hC (UflTensors.ScalarExpr.mk 0 [1]) []
      [[UflTensors.ScalarExpr.mk 0 [1]]] (by decide) (by decide)).mp hcontra
    exact hall (by decide)
